import Mathlib

/-!
Shallow embedding of the spyglass crawl-queue scheduler
(`crates/entities/src/models/crawl_queue.rs`) and of the plugin host's
file-notification mapping (`crates/spyglass/src/plugin/mod.rs`).

The SQL-backed store is modelled as explicit lists of rows; each database
operation is a pure function on that state.  Timestamps are naturals (an
abstract monotone clock passed in as `now`).  The external `url` and `regex`
crates are modelled by an explicit parser argument and an explicit
regex-match oracle carried in a `RegexEngine` record, so theorems quantify
over every possible behaviour of those crates; a small executable parser
(`parseUrlM`) is provided for concrete evaluation.
-/

/-- Task status (`CrawlStatus` in `crawl_queue.rs`). -/
inductive CrawlStatus
  | Queued
  | Processing
  | Completed
  | Failed
deriving DecidableEq, Repr

/-- Crawl type (`CrawlType`); `Bootstrap` is the priority class. -/
inductive CrawlType
  | Api
  | Bootstrap
  | Normal
deriving DecidableEq, Repr

/-- Kind of a task error (`TaskErrorType`). -/
inductive TaskErrorType
  | Collect
  | Fetch
  | Parse
  | Tag
deriving DecidableEq, Repr

/-- A task error (`TaskError`). -/
structure TaskError where
  error_type : TaskErrorType
  msg : String
deriving DecidableEq, Repr

/-- A crawl-queue row (`Model` in `crawl_queue.rs`).  `i64` ids are `Int`,
`u8 num_retries` is a `Nat` (every increment in the code is guarded by
`num_retries <= MAX_RETRIES = 5`, so `u8` overflow is unreachable), and
`DateTimeUtc` timestamps are `Nat` ticks of an abstract clock. -/
structure Model where
  id : Int
  domain : String
  url : String
  status : CrawlStatus
  error : Option TaskError
  data : Option String
  num_retries : Nat
  crawl_type : CrawlType
  created_at : Nat
  updated_at : Nat
  pipeline : Option String
deriving DecidableEq, Repr

/-- A row of the external `indexed_document` table (only the columns the
crawl queue reads). -/
structure IndexedDocument where
  domain : String
  url : String
deriving DecidableEq, Repr

/-- A row of the `tag` table. -/
structure TagModel where
  id : Int
  label : String
  value : String
deriving DecidableEq, Repr

/-- A row of the `crawl_tag` join table. -/
structure CrawlTagRow where
  crawl_queue_id : Int
  tag_id : Int
  created_at : Nat
  updated_at : Nat
deriving DecidableEq, Repr

/-- The database state shared by all crawl-queue operations.  `next_id` and
`next_tag_id` model the autoincrement counters of the two primary keys. -/
structure Store where
  queue : List Model
  indexed : List IndexedDocument
  tags : List TagModel
  crawl_tags : List CrawlTagRow
  next_id : Int
  next_tag_id : Int
deriving DecidableEq, Repr

/-- Modelled from the spec: `Limit` lives in the `shared` crate, which is not
part of the sources; the spec describes it as `{Infinite | Finite(u32)}`. -/
inductive Limit
  | Infinite
  | Finite (n : Nat)
deriving DecidableEq, Repr

/-- Modelled from the spec: `UserSettings` lives in the `shared` crate, which
is not part of the sources.  The spec lists exactly the options consumed by
the scheduler and the admission filter. -/
structure UserSettings where
  inflight_crawl_limit : Limit
  inflight_domain_limit : Nat
  domain_crawl_limit : Nat
  crawl_external_links : Bool
  block_list : List String
deriving DecidableEq, Repr

/-- Modelled from the spec: a lens rule is `SkipURL(glob)` or
`LimitURLDepth(prefix, n)` (`shared` crate, not in the sources). -/
inductive LensRule
  | SkipURL (glob : String)
  | LimitURLDepth (p : String) (n : Nat)
deriving DecidableEq, Repr

/-- Modelled from the spec: the parts of `LensConfig` read by
`create_ruleset_from_lens` (`shared` crate, not in the sources). -/
structure LensConfig where
  domains : List String
  urls : List String
  rules : List LensRule
deriving DecidableEq, Repr

/-- `EnqueueSettings` in `crawl_queue.rs`. -/
structure EnqueueSettings where
  crawl_type : CrawlType
  tags : List (String × String)
  force_allow : Bool
  is_recrawl : Bool
deriving DecidableEq, Repr

/-- Result of `url::Url::parse` after `set_fragment(None)`: the scheme, the
optional host, and the serialized (fragment-free) form.  The `url` crate is
an external dependency; operations take the parser as an argument. -/
structure ParsedUrl where
  scheme : String
  host : Option String
  serialized : String
deriving DecidableEq, Repr

/-- The regex facilities used by the admission filter: a match oracle
(`RegexSet::is_match` on a single pattern) plus the pattern constructors
`regex_for_domain`, `regex_for_prefix` and `LensRule::to_regex` from the
`shared` crate.  All are opaque to the queue code, so they are carried as
data and theorems hold for every engine. -/
structure RegexEngine where
  rmatch : String → String → Bool
  domainRegex : String → String
  startRegex : String → String
  ruleRegex : LensRule → String

/-- `MAX_RETRIES` in `crawl_queue.rs`. -/
def MAX_RETRIES : Nat := 5

/-- `Entity::find_by_id(id).one(db)`. -/
def findById (s : Store) (id : Int) : Option Model :=
  s.queue.find? (fun m => decide (m.id = id))

/-- `num_tasks_in_progress`: count of rows with status `Processing`. -/
def num_tasks_in_progress (s : Store) : Nat :=
  (s.queue.filter (fun m => decide (m.status = CrawlStatus.Processing))).length

/-- The `inflight` CTE of `sql/dequeue.sqlx`: `Processing` rows per domain. -/
def inflightDomain (s : Store) (d : String) : Nat :=
  (s.queue.filter
    (fun m => decide (m.status = CrawlStatus.Processing ∧ m.domain = d))).length

/-- The `indexed` CTE of `sql/dequeue.sqlx`: indexed documents per domain. -/
def indexedDomain (s : Store) (d : String) : Nat :=
  (s.indexed.filter (fun e => decide (e.domain = d))).length

/-- `reset_processing`: an `update_many` that sets every `Processing` row to
`Queued`.  It writes only the `status` column (it does not go through
`before_save`, so `updated_at` is not touched). -/
def reset_processing (s : Store) : Store :=
  { s with
    queue := s.queue.map (fun m =>
      if m.status = CrawlStatus.Processing then
        { m with status := CrawlStatus.Queued }
      else m) }

/-- The `WHERE` clause of `sql/dequeue.sqlx` (the statement is asserted
verbatim by `test_priority_sql`): both per-domain caps hold and the row is
`Queued`. -/
def dequeuePred (s : Store) (us : UserSettings) (m : Model) : Prop :=
  indexedDomain s m.domain < us.domain_crawl_limit ∧
  inflightDomain s m.domain < us.inflight_domain_limit ∧
  m.status = CrawlStatus.Queued

instance (s : Store) (us : UserSettings) (m : Model) :
    Decidable (dequeuePred s us m) := by
  unfold dequeuePred
  infer_instance

/-- `ORDER BY updated_at ASC ... .one(db)`: first row among those with the
least `updated_at` (SQLite keeps the scan order for ties). -/
def minByUpdatedAt (l : List Model) : Option Model :=
  l.foldl
    (fun acc m =>
      match acc with
      | none => some m
      | some b => some (if m.updated_at < b.updated_at then m else b))
    none

/-- The raw-SQL selection of `gen_dequeue_sql` applied to the store. -/
def gen_dequeue_select (s : Store) (us : UserSettings) : Option Model :=
  minByUpdatedAt (s.queue.filter (fun m => decide (dequeuePred s us m)))

/-- The Bootstrap-priority lookup in `dequeue`:
`status = Queued AND crawl_type = Bootstrap`, no ordering (`one(db)` picks
an implementation-defined row; the embedding takes the first). -/
def bootstrapTask (s : Store) : Option Model :=
  s.queue.find? (fun m =>
    decide (m.status = CrawlStatus.Queued ∧ m.crawl_type = CrawlType.Bootstrap))

/-- The claim step of `dequeue`/`dequeue_recrawl`: set the chosen task to
`Processing` (an `ActiveModel` update, so `before_save` bumps `updated_at`).
The `UPDATE ... WHERE id` fails (returns `None`) when the row is gone. -/
def claimTask (now : Nat) (s : Store) (t : Model) : Option Model × Store :=
  if s.queue.any (fun m => decide (m.id = t.id)) then
    (some { t with status := CrawlStatus.Processing, updated_at := now },
     { s with
       queue := s.queue.map (fun m =>
         if m.id = t.id then
           { m with status := CrawlStatus.Processing, updated_at := now }
         else m) })
  else
    (none, s)

/-- The body of `dequeue` after the global-cap gate: bootstrap tasks first,
otherwise the raw-SQL priority query; claim whatever was chosen. -/
def dequeueStep (now : Nat) (s : Store) (us : UserSettings) :
    Option Model × Store :=
  match bootstrapTask s with
  | some t => claimTask now s t
  | none =>
    match gen_dequeue_select s us with
    | some t => claimTask now s t
    | none => (none, s)

/-- `dequeue`: gate on the global in-flight cap, then select and claim. -/
def dequeue (now : Nat) (s : Store) (us : UserSettings) :
    Option Model × Store :=
  match us.inflight_crawl_limit with
  | Limit.Finite l =>
    if num_tasks_in_progress s ≥ l then (none, s) else dequeueStep now s us
  | Limit.Infinite => dequeueStep now s us

/-- The three pattern lists produced from one lens (`LensRuleSets`). -/
structure LensRuleSets where
  allow_list : List String
  skip_list : List String
  restrict_list : List String
deriving DecidableEq, Repr

/-- `create_ruleset_from_lens`: domains and url prefixes feed the allow
list, `SkipURL` rules the skip list, `LimitURLDepth` rules the restrict
list, in iteration order. -/
def create_ruleset_from_lens (eng : RegexEngine) (lens : LensConfig) :
    LensRuleSets :=
  { allow_list :=
      lens.domains.map eng.domainRegex ++ lens.urls.map eng.startRegex
    skip_list :=
      lens.rules.filterMap (fun r =>
        match r with
        | LensRule.SkipURL _ => some (eng.ruleRegex r)
        | LensRule.LimitURLDepth _ _ => none)
    restrict_list :=
      lens.rules.filterMap (fun r =>
        match r with
        | LensRule.SkipURL _ => none
        | LensRule.LimitURLDepth _ _ => some (eng.ruleRegex r)) }

/-- `RegexSet::is_match`: some pattern of the set matches. -/
def setMatch (eng : RegexEngine) (pats : List String) (u : String) : Bool :=
  pats.any (fun p => eng.rmatch p u)

/-- The per-URL body of the `filter_map` in `filter_urls`. -/
def admitUrl (eng : RegexEngine) (prs : String → Option ParsedUrl)
    (allow skip restrict : List String) (settings : UserSettings)
    (overrides : EnqueueSettings) (url : String) : Option String :=
  match prs url with
  | none => none
  | some parsed =>
    if parsed.scheme ≠ "http" ∧ parsed.scheme ≠ "https" ∧
        parsed.scheme ≠ "file" ∧ parsed.scheme ≠ "api" then
      none
    else
      let normalized := parsed.serialized
      if setMatch eng skip normalized ∨
          (¬ restrict.isEmpty ∧ ¬ setMatch eng restrict normalized) then
        none
      else if settings.crawl_external_links then
        some normalized
      else if overrides.force_allow ∨
          (¬ allow.isEmpty ∧ setMatch eng allow normalized) then
        some normalized
      else
        none

/-- `filter_urls`: the user block list seeds the skip set, every lens
extends the three sets, then each URL is normalized and gated. -/
def filter_urls (eng : RegexEngine) (prs : String → Option ParsedUrl)
    (lenses : List LensConfig) (settings : UserSettings)
    (overrides : EnqueueSettings) (urls : List String) : List String :=
  let skip0 := settings.block_list.map eng.domainRegex
  let rulesets := lenses.map (create_ruleset_from_lens eng)
  let allow := rulesets.foldl (fun acc r => acc ++ r.allow_list) []
  let skip := rulesets.foldl (fun acc r => acc ++ r.skip_list) skip0
  let restrict := rulesets.foldl (fun acc r => acc ++ r.restrict_list) []
  urls.filterMap (admitUrl eng prs allow skip restrict settings overrides)

/-- The columns `enqueue_all` sets on each inserted `ActiveModel`. -/
structure EnqueueRow where
  domain : String
  crawl_type : CrawlType
  url : String
  pipeline : Option String
deriving DecidableEq, Repr

/-- The `to_add` construction of `enqueue_all`: skip already-indexed URLs
and unparsable URLs; extract the domain (`file` ⇒ `"localhost"`, otherwise
`parsed.host_str().expect("Invalid URL host")` — the `expect` is a panic,
modelled as `Except.error`). -/
def buildRows (prs : String → Option ParsedUrl) (ct : CrawlType)
    (pipeline : Option String) (is_indexed : List String) :
    List String → Except String (List EnqueueRow)
  | [] => Except.ok []
  | url :: rest =>
    if is_indexed.contains url then
      buildRows prs ct pipeline is_indexed rest
    else
      match prs url with
      | none => buildRows prs ct pipeline is_indexed rest
      | some parsed =>
        let dm : Except String String :=
          if parsed.scheme = "file" then Except.ok "localhost"
          else
            match parsed.host with
            | some h => Except.ok h
            | none => Except.error "Invalid URL host"
        match dm with
        | Except.error e => Except.error e
        | Except.ok d =>
          match buildRows prs ct pipeline is_indexed rest with
          | Except.error e => Except.error e
          | Except.ok rows =>
            Except.ok
              ({ domain := d, crawl_type := ct, url := url,
                 pipeline := pipeline } :: rows)

/-- One row of the chunked `insert_many ... on_conflict` of `enqueue_all`,
with SQLite semantics.  On conflict with an existing `url`:
`is_recrawl` ⇒ `DO UPDATE SET status = excluded.status`; the insert does not
supply `status`, so `excluded.status` is the column default.  Modelled from
the spec: the migration (not in the sources) gives the defaults
`status = Queued`, `num_retries = 0`, `created_at = updated_at = now`
(`test_enqueue_with_recrawl` corroborates the `Queued` default).  Without
`is_recrawl` the conflict policy is `DO NOTHING`. -/
def insertOrUpdate (now : Nat) (is_recrawl : Bool) (s : Store)
    (row : EnqueueRow) : Store :=
  if s.queue.any (fun m => decide (m.url = row.url)) then
    if is_recrawl then
      { s with
        queue := s.queue.map (fun m =>
          if m.url = row.url then { m with status := CrawlStatus.Queued }
          else m) }
    else s
  else
    { s with
      queue := s.queue ++
        [{ id := s.next_id, domain := row.domain, url := row.url,
           status := CrawlStatus.Queued, error := none, data := none,
           num_retries := 0, crawl_type := row.crawl_type,
           created_at := now, updated_at := now, pipeline := row.pipeline }]
      next_id := s.next_id + 1 }

/-- `enqueue_all`: filter the URLs, drop already-indexed ones (unless
recrawling), build the rows (a hostless non-`file` URL panics here), then
insert with the conflict policy.  Chunking in `BATCH_SIZE` groups has the
same sequential effect as a row-by-row fold. -/
def enqueue_all (eng : RegexEngine) (prs : String → Option ParsedUrl)
    (now : Nat) (s : Store) (urls : List String) (lenses : List LensConfig)
    (settings : UserSettings) (overrides : EnqueueSettings)
    (pipeline : Option String) : Except String Store :=
  let urls' := filter_urls eng prs lenses settings overrides urls
  let is_indexed :=
    if overrides.is_recrawl then []
    else (s.indexed.filter (fun e => urls'.contains e.url)).map
      (fun e => e.url)
  match buildRows prs overrides.crawl_type pipeline is_indexed urls' with
  | Except.error e => Except.error e
  | Except.ok rows =>
    Except.ok (rows.foldl (insertOrUpdate now overrides.is_recrawl) s)

/-- `tag::get_or_create`: find the tag by `(label, value)` or insert it. -/
def get_or_create (s : Store) (label value : String) : TagModel × Store :=
  match s.tags.find? (fun t => decide (t.label = label ∧ t.value = value)) with
  | some t => (t, s)
  | none =>
    let t : TagModel := { id := s.next_tag_id, label := label, value := value }
    (t, { s with tags := s.tags ++ [t], next_tag_id := s.next_tag_id + 1 })

/-- `ActiveModel::insert_tags`: get-or-create each tag, then insert the join
rows with `ON CONFLICT (crawl_queue_id, tag_id) DO NOTHING`. -/
def insert_tags (now : Nat) (s : Store) (crawl_id : Int)
    (tags : List (String × String)) : Store :=
  let tagAcc := tags.foldl
    (fun (acc : List TagModel × Store) p =>
      let r := get_or_create acc.2 p.1 p.2
      (acc.1 ++ [r.1], r.2))
    ([], s)
  tagAcc.1.foldl
    (fun st t =>
      if st.crawl_tags.any (fun ct =>
          decide (ct.crawl_queue_id = crawl_id ∧ ct.tag_id = t.id)) then st
      else
        { st with
          crawl_tags := st.crawl_tags ++
            [{ crawl_queue_id := crawl_id, tag_id := t.id,
               created_at := now, updated_at := now }] })
    tagAcc.2

/-- `mark_done`: missing id ⇒ `None` and no writes; otherwise insert the
tags (when given) and update the row to `Completed` (bumps `updated_at`). -/
def mark_done (now : Nat) (s : Store) (id : Int)
    (tags : Option (List (String × String))) : Option Model × Store :=
  match findById s id with
  | none => (none, s)
  | some crawl =>
    let s1 :=
      match tags with
      | some tl => insert_tags now s crawl.id tl
      | none => s
    (some { crawl with status := CrawlStatus.Completed, updated_at := now },
     { s1 with
       queue := s1.queue.map (fun m =>
         if m.id = id then
           { m with status := CrawlStatus.Completed, updated_at := now }
         else m) })

/-- `mark_failed`: if `retry` and the fetched row has
`num_retries <= MAX_RETRIES`, increment the count and re-queue, else set
`Failed`.  Both branches are `ActiveModel` updates, so `updated_at` is
bumped; only the listed columns are written. -/
def mark_failed (now : Nat) (s : Store) (id : Int) (retry : Bool) : Store :=
  match findById s id with
  | none => s
  | some crawl =>
    if retry = true ∧ crawl.num_retries ≤ MAX_RETRIES then
      { s with
        queue := s.queue.map (fun m =>
          if m.id = id then
            { m with num_retries := crawl.num_retries + 1,
                     status := CrawlStatus.Queued, updated_at := now }
          else m) }
    else
      { s with
        queue := s.queue.map (fun m =>
          if m.id = id then
            { m with status := CrawlStatus.Failed, updated_at := now }
          else m) }

/-- `update_or_remove_task`: if some task already holds `url`, delete the
given task (when distinct) and return the holder; otherwise rename the
given task (an update that bumps `updated_at` in the store, while the
returned value is the fetched model with only `url` replaced); missing id
⇒ `Task not found`. -/
def update_or_remove_task (now : Nat) (s : Store) (id : Int) (url : String) :
    Except String (Model × Store) :=
  match s.queue.find? (fun m => decide (m.url = url)) with
  | some existing =>
    if existing.id ≠ id then
      Except.ok (existing,
        { s with queue := s.queue.filter (fun m => decide (m.id ≠ id)) })
    else
      Except.ok (existing, s)
  | none =>
    match findById s id with
    | some task =>
      if task.url ≠ url then
        Except.ok ({ task with url := url },
          { s with
            queue := s.queue.map (fun m =>
              if m.id = id then { m with url := url, updated_at := now }
              else m) })
      else
        Except.ok (task, s)
    | none => Except.error "Task not found"

/-- `notify::event::ModifyKind` (external crate); payloads are abstracted
to `Nat`. -/
inductive ModifyKind
  | Any
  | Data (detail : Nat)
  | Name (detail : Nat)
  | Metadata (detail : Nat)
  | Other
deriving DecidableEq, Repr

/-- `notify::EventKind` (external crate); payloads are abstracted to
`Nat`. -/
inductive EventKind
  | Any
  | Access (detail : Nat)
  | Create (detail : Nat)
  | Modify (mk : ModifyKind)
  | Remove (detail : Nat)
  | Other
deriving DecidableEq, Repr

/-- `PluginEvent` variants used by the file-notify mapping. -/
inductive PluginEvent
  | IntervalUpdate
  | FileCreated (path : String)
  | FileUpdated (path : String)
  | FileDeleted (path : String)
deriving DecidableEq, Repr

/-- A raw filesystem event as received by `QueueFileNotify`. -/
structure FileEvent where
  kind : EventKind
  paths : List String
deriving DecidableEq, Repr

/-- The `filter_map` over `file_event.paths` in the `QueueFileNotify` arm of
`plugin_event_loop`: map the raw kind to a plugin event per path, dropping
`Modify(Metadata)` and every unlisted kind. -/
def queueFileNotifyPairs (ev : FileEvent) : List (String × PluginEvent) :=
  ev.paths.filterMap (fun path =>
    match ev.kind with
    | EventKind.Create _ => some (path, PluginEvent.FileCreated path)
    | EventKind.Modify mk =>
      match mk with
      | ModifyKind.Any => some (path, PluginEvent.FileUpdated path)
      | ModifyKind.Data _ => some (path, PluginEvent.FileUpdated path)
      | ModifyKind.Name _ => some (path, PluginEvent.FileUpdated path)
      | ModifyKind.Other => some (path, PluginEvent.FileUpdated path)
      | ModifyKind.Metadata _ => none
    | EventKind.Remove _ => some (path, PluginEvent.FileDeleted path)
    | _ => none)

/-- Drop everything from the first `#` on (`set_fragment(None)` followed by
serialization). -/
def stripFragmentL : List Char → List Char
  | [] => []
  | c :: rest => if c = '#' then [] else c :: stripFragmentL rest

/-- Split at the first occurrence of `sep`, if any. -/
def splitFirst (sep : Char) : List Char → Option (List Char × List Char)
  | [] => none
  | c :: cs =>
    if c = sep then some ([], cs)
    else (splitFirst sep cs).map (fun p => (c :: p.1, p.2))

/-- Characters before the first `/` or `?` (the authority of a URL). -/
def takeAuthority : List Char → List Char
  | [] => []
  | c :: rest =>
    if c = '/' ∨ c = '?' then [] else c :: takeAuthority rest

/-- Modelled from the url crate (external dependency): an executable parser
covering the shapes the claims evaluate concretely.  `scheme://authority…`
yields the authority as host (empty authority ⇒ no host, rejected for the
special schemes `http`/`https` but legal for `file`); `scheme:opaque` (a
non-special scheme such as `api`) yields no host; the serialized form is
the input without its fragment.  Userinfo/port splitting and path
normalization are not modelled; no claim depends on them. -/
def parseUrlM (input : String) : Option ParsedUrl :=
  let cs := stripFragmentL input.data
  match splitFirst ':' cs with
  | none => none
  | some (schemeCs, rest) =>
    if schemeCs.isEmpty then none
    else
      let scheme := String.mk schemeCs
      match rest with
      | '/' :: '/' :: rest2 =>
        let hostCs := takeAuthority rest2
        if hostCs.isEmpty then
          if scheme = "file" then
            some { scheme := scheme, host := none, serialized := String.mk cs }
          else none
        else
          some { scheme := scheme, host := some (String.mk hostCs),
                 serialized := String.mk cs }
      | _ =>
        some { scheme := scheme, host := none, serialized := String.mk cs }

/-- A trivial concrete regex engine for closed evaluations: no pattern ever
matches (exactly the behaviour of an empty `RegexSet`, and all pattern
lists are empty in the closed examples below). -/
def engNone : RegexEngine :=
  { rmatch := fun _ _ => false
    domainRegex := fun d => d
    startRegex := fun p => p
    ruleRegex := fun _ => "" }

/-- Settings with no caps exercised and external links allowed. -/
def usOpen : UserSettings :=
  { inflight_crawl_limit := Limit.Infinite
    inflight_domain_limit := 2
    domain_crawl_limit := 500000
    crawl_external_links := true
    block_list := [] }

/-- A store with a single Queued Bootstrap task in domain `d`. -/
def storeBoot : Store :=
  { queue := [{ id := 1, domain := "d", url := "https://d/x",
                status := CrawlStatus.Queued, error := none, data := none,
                num_retries := 0, crawl_type := CrawlType.Bootstrap,
                created_at := 0, updated_at := 0, pipeline := none }]
    indexed := []
    tags := []
    crawl_tags := []
    next_id := 2
    next_tag_id := 1 }

/-- Settings whose per-domain caps are both zero (legal `u32` values). -/
def usZeroCaps : UserSettings :=
  { inflight_crawl_limit := Limit.Infinite
    inflight_domain_limit := 0
    domain_crawl_limit := 0
    crawl_external_links := false
    block_list := [] }

/-- A store with a single Queued Normal task. -/
def storeNorm : Store :=
  { queue := [{ id := 1, domain := "a", url := "http://a/x",
                status := CrawlStatus.Queued, error := none, data := none,
                num_retries := 0, crawl_type := CrawlType.Normal,
                created_at := 0, updated_at := 0, pipeline := none }]
    indexed := []
    tags := []
    crawl_tags := []
    next_id := 2
    next_tag_id := 1 }

/-- Settings with finite caps that `storeNorm` satisfies. -/
def usFinite : UserSettings :=
  { inflight_crawl_limit := Limit.Finite 10
    inflight_domain_limit := 2
    domain_crawl_limit := 500000
    crawl_external_links := false
    block_list := [] }

/-- The empty store. -/
def storeEmpty : Store :=
  { queue := [], indexed := [], tags := [], crawl_tags := [],
    next_id := 1, next_tag_id := 1 }

/-- Enqueue overrides with `force_allow` and no recrawl. -/
def ovForce : EnqueueSettings :=
  { crawl_type := CrawlType.Normal, tags := [], force_allow := true,
    is_recrawl := false }

/-- Enqueue overrides with `force_allow` and `is_recrawl`. -/
def ovRecrawl : EnqueueSettings :=
  { crawl_type := CrawlType.Normal, tags := [], force_allow := true,
    is_recrawl := true }

/-- A store with a single Completed task for `http://a/x`. -/
def storeDone : Store :=
  { queue := [{ id := 1, domain := "a", url := "http://a/x",
                status := CrawlStatus.Completed, error := none, data := none,
                num_retries := 0, crawl_type := CrawlType.Normal,
                created_at := 0, updated_at := 0, pipeline := none }]
    indexed := []
    tags := []
    crawl_tags := []
    next_id := 2
    next_tag_id := 1 }

/-- `k` successive `mark_failed(id, retry = true)` calls; call number `j`
runs at clock tick `j` (the retry/status bookkeeping is independent of the
clock). -/
def iterFailed (id : Int) : Nat → Store → Store
  | 0, s => s
  | k + 1, s => mark_failed (k + 1) (iterFailed id k s) id true

/-- Clock sanity: every row was written no later than `now`, and no row was
updated before it was created. -/
def TimeOk (now : Nat) (s : Store) : Prop :=
  ∀ m ∈ s.queue, m.created_at ≤ m.updated_at ∧ m.updated_at ≤ now

/-- Primary-key sanity: queue ids are distinct. -/
def NodupIds (s : Store) : Prop :=
  (s.queue.map (fun m => m.id)).Nodup

/-- The timestamp contract of one mutation taking queue `q` to queue `q'`:
every resulting row satisfies `updated_at ≥ created_at`, its `updated_at`
is at or after that of the row that previously held its id, and rows with
fresh ids (inserts) have `updated_at = created_at`. -/
def MonoQueue (q q' : List Model) : Prop :=
  ∀ m' ∈ q', m'.created_at ≤ m'.updated_at ∧
    (∀ m ∈ q, m.id = m'.id → m.updated_at ≤ m'.updated_at) ∧
    ((∀ m ∈ q, m.id ≠ m'.id) → m'.updated_at = m'.created_at)

/-- All rows of `q` were updated at or before `now`. -/
def UpBounded (now : Nat) (q : List Model) : Prop :=
  ∀ m ∈ q, m.updated_at ≤ now

/-- Agreement on every stored column except `updated_at`. -/
def sameExceptUpdatedAt (a b : Model) : Prop :=
  a.id = b.id ∧ a.domain = b.domain ∧ a.url = b.url ∧ a.status = b.status ∧
  a.error = b.error ∧ a.data = b.data ∧ a.num_retries = b.num_retries ∧
  a.crawl_type = b.crawl_type ∧ a.created_at = b.created_at ∧
  a.pipeline = b.pipeline

/-- A store with one task whose url is about to be renamed. -/
def storeRename : Store :=
  { queue := [{ id := 1, domain := "a", url := "http://a/x",
                status := CrawlStatus.Completed, error := none, data := none,
                num_retries := 0, crawl_type := CrawlType.Normal,
                created_at := 0, updated_at := 0, pipeline := none }]
    indexed := []
    tags := []
    crawl_tags := []
    next_id := 2
    next_tag_id := 1 }

theorem filterMap_const_some {α β : Type} (f : α → β) (l : List α) :
    l.filterMap (fun a => some (f a)) = l.map f := by
  induction l with
  | nil => rfl
  | cons a t ih => simp [List.filterMap_cons, ih]

theorem filterMap_const_none {α β : Type} (l : List α) :
    l.filterMap (fun _ => (none : Option β)) = [] := by
  induction l with
  | nil => rfl
  | cons a t ih => simp [List.filterMap_cons, ih]

/-- C10: for an id not present in the crawl queue, `mark_done` returns
`None` and leaves the whole store (rows and tag associations) unchanged,
regardless of the tags argument. -/
theorem mark_done_missing_id (now : Nat) (s : Store) (id : Int)
    (tags : Option (List (String × String))) (h : findById s id = none) :
    mark_done now s id tags = (none, s) := by
  unfold mark_done
  rw [h]

theorem mark_done_missing_id_witness :
    findById storeNorm 99 = none ∧
    mark_done 7 storeNorm 99 (some [("lens", "demo")]) = (none, storeNorm) :=
  ⟨by decide,
   mark_done_missing_id 7 storeNorm 99 (some [("lens", "demo")]) (by decide)⟩

/-- C9: `mark_failed(id, retry = false)` on an existing task sets its status
to `Failed` and bumps only `updated_at`; every other stored column of that
row — `num_retries` included — and every other row and table are
unchanged. -/
theorem mark_failed_no_retry_frame (now : Nat) (s : Store) (id : Int)
    (m : Model) (h : findById s id = some m) :
    List.Forall₂ (fun old new =>
      (old.id ≠ id → new = old) ∧
      (old.id = id → new.status = CrawlStatus.Failed ∧ new.updated_at = now ∧
        new.num_retries = old.num_retries ∧ new.url = old.url ∧
        new.domain = old.domain ∧ new.crawl_type = old.crawl_type ∧
        new.error = old.error ∧ new.data = old.data ∧
        new.pipeline = old.pipeline ∧ new.created_at = old.created_at))
      s.queue (mark_failed now s id false).queue ∧
    (mark_failed now s id false).indexed = s.indexed ∧
    (mark_failed now s id false).tags = s.tags ∧
    (mark_failed now s id false).crawl_tags = s.crawl_tags ∧
    (mark_failed now s id false).next_id = s.next_id := by
  unfold mark_failed
  rw [h]
  simp only [false_and, if_false, Bool.false_eq_true]
  refine ⟨?_, trivial, trivial, trivial, trivial⟩
  rw [List.forall₂_map_right_iff]
  rw [List.forall₂_same]
  intro a _
  by_cases hid : a.id = id
  · simp [hid]
  · simp [hid]

theorem mark_failed_no_retry_frame_witness :
    findById storeNorm 1 = some
      { id := 1, domain := "a", url := "http://a/x",
        status := CrawlStatus.Queued, error := none, data := none,
        num_retries := 0, crawl_type := CrawlType.Normal,
        created_at := 0, updated_at := 0, pipeline := none } ∧
    (List.Forall₂ (fun old new =>
      (old.id ≠ 1 → new = old) ∧
      (old.id = 1 → new.status = CrawlStatus.Failed ∧ new.updated_at = 9 ∧
        new.num_retries = old.num_retries ∧ new.url = old.url ∧
        new.domain = old.domain ∧ new.crawl_type = old.crawl_type ∧
        new.error = old.error ∧ new.data = old.data ∧
        new.pipeline = old.pipeline ∧ new.created_at = old.created_at))
      storeNorm.queue (mark_failed 9 storeNorm 1 false).queue ∧
    (mark_failed 9 storeNorm 1 false).indexed = storeNorm.indexed ∧
    (mark_failed 9 storeNorm 1 false).tags = storeNorm.tags ∧
    (mark_failed 9 storeNorm 1 false).crawl_tags = storeNorm.crawl_tags ∧
    (mark_failed 9 storeNorm 1 false).next_id = storeNorm.next_id) :=
  ⟨by decide,
   mark_failed_no_retry_frame 9 storeNorm 1
     { id := 1, domain := "a", url := "http://a/x",
       status := CrawlStatus.Queued, error := none, data := none,
       num_retries := 0, crawl_type := CrawlType.Normal,
       created_at := 0, updated_at := 0, pipeline := none } (by decide)⟩

/-- C8: the file-notify mapping of the plugin event loop emits
`FileCreated` for every `Create` event, `FileUpdated` for `Modify` events
of kind `Any`, `Data`, `Name` or `Other`, `FileDeleted` for every `Remove`
event, and nothing for `Modify(Metadata)` or any other event kind. -/
theorem file_notify_mapping (paths : List String) :
    (∀ d, queueFileNotifyPairs ⟨EventKind.Create d, paths⟩ =
      paths.map (fun p => (p, PluginEvent.FileCreated p))) ∧
    queueFileNotifyPairs ⟨EventKind.Modify ModifyKind.Any, paths⟩ =
      paths.map (fun p => (p, PluginEvent.FileUpdated p)) ∧
    (∀ d, queueFileNotifyPairs ⟨EventKind.Modify (ModifyKind.Data d), paths⟩ =
      paths.map (fun p => (p, PluginEvent.FileUpdated p))) ∧
    (∀ d, queueFileNotifyPairs ⟨EventKind.Modify (ModifyKind.Name d), paths⟩ =
      paths.map (fun p => (p, PluginEvent.FileUpdated p))) ∧
    queueFileNotifyPairs ⟨EventKind.Modify ModifyKind.Other, paths⟩ =
      paths.map (fun p => (p, PluginEvent.FileUpdated p)) ∧
    (∀ d, queueFileNotifyPairs ⟨EventKind.Remove d, paths⟩ =
      paths.map (fun p => (p, PluginEvent.FileDeleted p))) ∧
    (∀ d, queueFileNotifyPairs
      ⟨EventKind.Modify (ModifyKind.Metadata d), paths⟩ = []) ∧
    queueFileNotifyPairs ⟨EventKind.Any, paths⟩ = [] ∧
    (∀ d, queueFileNotifyPairs ⟨EventKind.Access d, paths⟩ = []) ∧
    queueFileNotifyPairs ⟨EventKind.Other, paths⟩ = [] := by
  unfold queueFileNotifyPairs
  refine ⟨fun d => ?_, ?_, fun d => ?_, fun d => ?_, ?_, fun d => ?_,
    fun d => ?_, ?_, fun d => ?_, ?_⟩ <;>
    first
      | exact filterMap_const_some _ paths
      | exact filterMap_const_none paths

/-- C3 (code evaluated at the failing input): an `api`-scheme URL with no
host passes the admission filter, and `enqueue_all` then panics on
`host_str().expect("Invalid URL host")` instead of dropping the URL. -/
theorem enqueue_all_hostless_api_panics :
    enqueue_all engNone parseUrlM 3 storeEmpty ["api:test"] [] usFinite
      ovForce none = Except.error "Invalid URL host" := by
  rfl

theorem find?_map_of_id {f : Model → Model} (hf : ∀ m, (f m).id = m.id)
    (l : List Model) (id : Int) :
    (l.map f).find? (fun m => decide (m.id = id)) =
      (l.find? (fun m => decide (m.id = id))).map f := by
  induction l with
  | nil => rfl
  | cons a t ih =>
    simp only [List.map_cons, List.find?_cons]
    rw [hf a]
    by_cases h : a.id = id
    · simp [h]
    · simp [h, ih]

theorem mark_failed_retry_step (now : Nat) (s : Store) (id : Int) (m : Model)
    (h : findById s id = some m) :
    findById (mark_failed now s id true) id =
      some (if m.num_retries ≤ MAX_RETRIES then
              { m with num_retries := m.num_retries + 1,
                       status := CrawlStatus.Queued, updated_at := now }
            else { m with status := CrawlStatus.Failed, updated_at := now }) := by
  have h' : s.queue.find? (fun r => decide (r.id = id)) = some m := h
  have hmid : m.id = id := by
    have hp := List.find?_some h'
    simpa using hp
  by_cases hr : m.num_retries ≤ MAX_RETRIES
  · rw [if_pos hr]
    simp only [mark_failed, h, hr, and_true, if_true, true_and,
      eq_self_iff_true]
    unfold findById
    rw [find?_map_of_id (fun r => by by_cases hrid : r.id = id <;> simp [hrid])]
    rw [h']
    simp [hmid]
  · rw [if_neg hr]
    simp only [mark_failed, h, hr, and_false, if_false, true_and,
      eq_self_iff_true]
    unfold findById
    rw [find?_map_of_id (fun r => by by_cases hrid : r.id = id <;> simp [hrid])]
    rw [h']
    simp [hmid]

theorem iterFailed_queued (id : Int) (k : Nat) :
    ∀ s m, findById s id = some m →
    m.num_retries + k ≤ MAX_RETRIES + 1 →
    ∃ m', findById (iterFailed id k s) id = some m' ∧
      m'.num_retries = m.num_retries + k ∧
      m'.status = (if k = 0 then m.status else CrawlStatus.Queued) := by
  induction k with
  | zero =>
    intro s m h _
    exact ⟨m, h, by simp, by simp⟩
  | succ k ih =>
    intro s m h hk
    obtain ⟨m', hfind, hretr, _⟩ := ih s m h (by omega)
    have hle : m'.num_retries ≤ MAX_RETRIES := by
      rw [hretr]
      have hM : MAX_RETRIES = 5 := rfl
      omega
    have hstep := mark_failed_retry_step (k + 1) (iterFailed id k s) id m' hfind
    rw [if_pos hle] at hstep
    have hunf : iterFailed id (k + 1) s =
        mark_failed (k + 1) (iterFailed id k s) id true := rfl
    refine ⟨_, by rw [hunf]; exact hstep, by simp [hretr]; omega, by simp⟩

/-- C2 (amended): starting from `num_retries = 0`, k calls of
`mark_failed(id, retry = true)` (1 ≤ k ≤ MAX_RETRIES + 2) yield
`num_retries = min k (MAX_RETRIES + 1)` and status `Queued` for every
k ≤ MAX_RETRIES + 1; status `Failed` is reached only at
k = MAX_RETRIES + 2 (the code retries while `num_retries <= MAX_RETRIES`,
so the task is re-queued MAX_RETRIES + 1 times, not MAX_RETRIES times). -/
theorem mark_failed_retry_accounting (k : Nat) (s : Store) (id : Int)
    (m : Model) (h : findById s id = some m) (h0 : m.num_retries = 0)
    (hk1 : 1 ≤ k) (hk : k ≤ MAX_RETRIES + 2) :
    ∃ m', findById (iterFailed id k s) id = some m' ∧
      m'.num_retries = min k (MAX_RETRIES + 1) ∧
      m'.status = (if k ≤ MAX_RETRIES + 1 then CrawlStatus.Queued
                   else CrawlStatus.Failed) := by
  have hM : MAX_RETRIES = 5 := rfl
  by_cases hcase : k ≤ MAX_RETRIES + 1
  · obtain ⟨m', hfind, hretr, hstat⟩ :=
      iterFailed_queued id k s m h (by omega)
    refine ⟨m', hfind, ?_, ?_⟩
    · rw [hretr, h0]
      omega
    · rw [hstat, if_pos hcase, if_neg (by omega)]
  · have hk7 : k = MAX_RETRIES + 2 := by omega
    subst hk7
    obtain ⟨m', hfind, hretr, _⟩ :=
      iterFailed_queued id (MAX_RETRIES + 1) s m h (by omega)
    have hgt : ¬ m'.num_retries ≤ MAX_RETRIES := by
      rw [hretr, h0]
      omega
    have hstep := mark_failed_retry_step (MAX_RETRIES + 2)
      (iterFailed id (MAX_RETRIES + 1) s) id m' hfind
    rw [if_neg hgt] at hstep
    have hunf : iterFailed id (MAX_RETRIES + 2) s =
        mark_failed (MAX_RETRIES + 2) (iterFailed id (MAX_RETRIES + 1) s)
          id true := rfl
    refine ⟨_, by rw [hunf]; exact hstep, ?_, by simp⟩
    simp only []
    rw [hretr, h0]
    omega

/-- C2 counterexample: with `num_retries` starting at 0, the sixth
`mark_failed(id, retry = true)` call (k = MAX_RETRIES + 1) leaves the task
`Queued` with `num_retries = 6`, not `Failed` as the claim states. -/
theorem mark_failed_sixth_retry_not_failed :
    (findById (iterFailed 1 6 storeNorm) 1).map Model.status =
      some CrawlStatus.Queued ∧
    (findById (iterFailed 1 6 storeNorm) 1).map Model.num_retries = some 6 ∧
    (findById (iterFailed 1 6 storeNorm) 1).map Model.status ≠
      some CrawlStatus.Failed := by
  decide

theorem mark_failed_retry_accounting_witness :
    findById storeNorm 1 = some
      { id := 1, domain := "a", url := "http://a/x",
        status := CrawlStatus.Queued, error := none, data := none,
        num_retries := 0, crawl_type := CrawlType.Normal,
        created_at := 0, updated_at := 0, pipeline := none } ∧
    (∃ m', findById (iterFailed 1 4 storeNorm) 1 = some m' ∧
      m'.num_retries = min 4 (MAX_RETRIES + 1) ∧
      m'.status = (if 4 ≤ MAX_RETRIES + 1 then CrawlStatus.Queued
                   else CrawlStatus.Failed)) :=
  ⟨by decide,
   mark_failed_retry_accounting 4 storeNorm 1
     { id := 1, domain := "a", url := "http://a/x",
       status := CrawlStatus.Queued, error := none, data := none,
       num_retries := 0, crawl_type := CrawlType.Normal,
       created_at := 0, updated_at := 0, pipeline := none }
     (by decide) (by decide) (by decide) (by decide)⟩

theorem foldl_append_cons {α β : Type} (g : β → List α) (x : α) (l : List β) :
    ∀ init : List α,
      l.foldl (fun acc r => acc ++ g r) (x :: init) =
        x :: l.foldl (fun acc r => acc ++ g r) init := by
  induction l with
  | nil => intro init; rfl
  | cons b t ih =>
    intro init
    simp only [List.foldl_cons, List.cons_append]
    exact ih (init ++ g b)

theorem admitUrl_skip_cons (eng : RegexEngine)
    (prs : String → Option ParsedUrl) (allow skip restrict : List String)
    (settings : UserSettings) (overrides : EnqueueSettings) (p url u : String)
    (h : admitUrl eng prs allow (p :: skip) restrict settings overrides url =
      some u) :
    admitUrl eng prs allow skip restrict settings overrides url = some u := by
  cases hp : prs url with
  | none =>
    simp only [admitUrl, hp] at h
    simp at h
  | some parsed =>
    simp only [admitUrl, hp] at h ⊢
    split at h
    · simp at h
    · rename_i hsch
      split at h
      · simp at h
      · rename_i hsk
        rw [if_neg hsch]
        have hsk' : ¬ (setMatch eng skip parsed.serialized = true ∨
            ¬ restrict.isEmpty = true ∧
              ¬ setMatch eng restrict parsed.serialized = true) := by
          intro hor
          apply hsk
          rcases hor with hl | hr
          · refine Or.inl ?_
            simp only [setMatch, List.any_cons, Bool.or_eq_true] at hl ⊢
            exact Or.inr hl
          · exact Or.inr hr
        rw [if_neg hsk']
        exact h

/-- C7: the admission filter is monotone in the user block list — for every
regex engine, URL parser, lens set, settings, overrides and input list,
adding a domain to `settings.block_list` never adds a URL to the accepted
output. -/
theorem filter_urls_block_monotone (eng : RegexEngine)
    (prs : String → Option ParsedUrl) (lenses : List LensConfig)
    (settings : UserSettings) (overrides : EnqueueSettings)
    (urls : List String) (d u : String)
    (h : u ∈ filter_urls eng prs lenses
      { settings with block_list := d :: settings.block_list }
      overrides urls) :
    u ∈ filter_urls eng prs lenses settings overrides urls := by
  unfold filter_urls at h ⊢
  rw [List.mem_filterMap] at h ⊢
  obtain ⟨x, hx, hadm⟩ := h
  refine ⟨x, hx, ?_⟩
  simp only [List.map_cons] at hadm
  rw [foldl_append_cons] at hadm
  exact admitUrl_skip_cons eng prs _ _ _ settings overrides
    (eng.domainRegex d) x u hadm

theorem filter_urls_block_monotone_witness :
    "http://a/x" ∈ filter_urls engNone parseUrlM []
      { usOpen with block_list := "evil" :: usOpen.block_list }
      ovForce ["http://a/x"] ∧
    "http://a/x" ∈ filter_urls engNone parseUrlM [] usOpen ovForce
      ["http://a/x"] :=
  ⟨by decide,
   filter_urls_block_monotone engNone parseUrlM [] usOpen ovForce
     ["http://a/x"] "evil" "http://a/x" (by decide)⟩

theorem minByUpdatedAt_mem_aux (l : List Model) :
    ∀ (acc : Option Model) (m : Model),
      l.foldl
        (fun acc m =>
          match acc with
          | none => some m
          | some b => some (if m.updated_at < b.updated_at then m else b))
        acc = some m →
      acc = some m ∨ m ∈ l := by
  induction l with
  | nil =>
    intro acc m h
    exact Or.inl h
  | cons a t ih =>
    intro acc m h
    simp only [List.foldl_cons] at h
    rcases ih _ m h with hacc | hmem
    · cases acc with
      | none =>
        have ha : a = m := Option.some.inj hacc
        exact Or.inr (ha ▸ List.mem_cons_self a t)
      | some b =>
        have hif : (if a.updated_at < b.updated_at then a else b) = m :=
          Option.some.inj hacc
        by_cases hlt : a.updated_at < b.updated_at
        · rw [if_pos hlt] at hif
          exact Or.inr (hif ▸ List.mem_cons_self a t)
        · rw [if_neg hlt] at hif
          exact Or.inl (congrArg some hif)
    · exact Or.inr (List.mem_cons_of_mem a hmem)

theorem minByUpdatedAt_mem (l : List Model) (m : Model)
    (h : minByUpdatedAt l = some m) : m ∈ l := by
  rcases minByUpdatedAt_mem_aux l none m h with hacc | hmem
  · exact absurd hacc (by simp)
  · exact hmem

theorem claimTask_some (now : Nat) (s : Store) (t0 t : Model) (s' : Store)
    (h : claimTask now s t0 = (some t, s')) :
    t = { t0 with status := CrawlStatus.Processing, updated_at := now } := by
  unfold claimTask at h
  split at h
  · rw [Prod.mk.injEq] at h
    exact (Option.some.inj h.1).symm
  · rw [Prod.mk.injEq] at h
    exact absurd h.1 (by simp)

theorem dequeueStep_select (now : Nat) (s : Store) (us : UserSettings)
    (t : Model) (s' : Store) (h : dequeueStep now s us = (some t, s'))
    (hnb : ∀ b ∈ s.queue, ¬ (b.status = CrawlStatus.Queued ∧
      b.crawl_type = CrawlType.Bootstrap)) :
    indexedDomain s t.domain < us.domain_crawl_limit ∧
    inflightDomain s t.domain < us.inflight_domain_limit := by
  have hb : bootstrapTask s = none := by
    unfold bootstrapTask
    rw [List.find?_eq_none]
    intro x hx
    simp only [decide_eq_true_eq]
    exact hnb x hx
  unfold dequeueStep at h
  rw [hb] at h
  cases hsel : gen_dequeue_select s us with
  | none =>
    rw [hsel] at h
    have hcontra : (none : Option Model) = some t := congrArg Prod.fst h
    exact Option.noConfusion hcontra
  | some t0 =>
    rw [hsel] at h
    have ht : t =
        { t0 with
          status := CrawlStatus.Processing
          updated_at := now } :=
      claimTask_some now s t0 t s' h
    have hmem : t0 ∈ s.queue.filter (fun m => decide (dequeuePred s us m)) :=
      minByUpdatedAt_mem _ t0 hsel
    rw [List.mem_filter] at hmem
    have hpred : dequeuePred s us t0 := of_decide_eq_true hmem.2
    rw [ht]
    exact ⟨hpred.1, hpred.2.1⟩

/-- C1 (amended): a task returned by `dequeue` always respects the global
in-flight cap at the moment of selection; when no Queued Bootstrap task
exists (so the task comes from the capped priority query), it also
respects the per-domain in-flight cap and the per-domain indexed-document
cap.  A returned Bootstrap task is subject to the global cap only — the
bootstrap-priority lookup bypasses both per-domain caps. -/
theorem dequeue_respects_caps (now : Nat) (s : Store) (us : UserSettings)
    (t : Model) (s' : Store) (h : dequeue now s us = (some t, s')) :
    (∀ l, us.inflight_crawl_limit = Limit.Finite l →
      num_tasks_in_progress s < l) ∧
    ((∀ b ∈ s.queue, ¬ (b.status = CrawlStatus.Queued ∧
        b.crawl_type = CrawlType.Bootstrap)) →
      indexedDomain s t.domain < us.domain_crawl_limit ∧
      inflightDomain s t.domain < us.inflight_domain_limit) := by
  cases hlim : us.inflight_crawl_limit with
  | Infinite =>
    simp only [dequeue, hlim] at h
    constructor
    · intro l hl
      exact absurd hl (by simp)
    · intro hnb
      exact dequeueStep_select now s us t s' h hnb
  | Finite l0 =>
    simp only [dequeue, hlim] at h
    split at h
    · rename_i hge
      have hcontra : (none : Option Model) = some t := congrArg Prod.fst h
      exact Option.noConfusion hcontra
    · rename_i hge
      constructor
      · intro l hl
        have : l0 = l := Limit.Finite.inj hl
        subst this
        omega
      · intro hnb
        exact dequeueStep_select now s us t s' h hnb

/-- C1 counterexample: with both per-domain caps set to zero and a Queued
Bootstrap task present, `dequeue` still returns the Bootstrap task, so the
returned task violates the per-domain in-flight cap and the per-domain
indexed-document cap at the moment of selection. -/
theorem dequeue_bootstrap_violates_domain_caps :
    (dequeue 5 storeBoot usZeroCaps).1 =
      some { id := 1, domain := "d", url := "https://d/x",
             status := CrawlStatus.Processing, error := none, data := none,
             num_retries := 0, crawl_type := CrawlType.Bootstrap,
             created_at := 0, updated_at := 5, pipeline := none } ∧
    ¬ (inflightDomain storeBoot "d" < usZeroCaps.inflight_domain_limit) ∧
    ¬ (indexedDomain storeBoot "d" < usZeroCaps.domain_crawl_limit) := by
  decide

theorem dequeue_respects_caps_witness :
    dequeue 5 storeNorm usFinite =
      (some { id := 1, domain := "a", url := "http://a/x",
              status := CrawlStatus.Processing, error := none, data := none,
              num_retries := 0, crawl_type := CrawlType.Normal,
              created_at := 0, updated_at := 5, pipeline := none },
       { queue := [{ id := 1, domain := "a", url := "http://a/x",
                     status := CrawlStatus.Processing, error := none,
                     data := none, num_retries := 0,
                     crawl_type := CrawlType.Normal, created_at := 0,
                     updated_at := 5, pipeline := none }]
         indexed := [], tags := [], crawl_tags := [],
         next_id := 2, next_tag_id := 1 }) ∧
    ((∀ l, usFinite.inflight_crawl_limit = Limit.Finite l →
      num_tasks_in_progress storeNorm < l) ∧
    ((∀ b ∈ storeNorm.queue, ¬ (b.status = CrawlStatus.Queued ∧
        b.crawl_type = CrawlType.Bootstrap)) →
      indexedDomain storeNorm "a" < usFinite.domain_crawl_limit ∧
      inflightDomain storeNorm "a" < usFinite.inflight_domain_limit)) :=
  ⟨by decide,
   dequeue_respects_caps 5 storeNorm usFinite
     { id := 1, domain := "a", url := "http://a/x",
       status := CrawlStatus.Processing, error := none, data := none,
       num_retries := 0, crawl_type := CrawlType.Normal,
       created_at := 0, updated_at := 5, pipeline := none }
     { queue := [{ id := 1, domain := "a", url := "http://a/x",
                   status := CrawlStatus.Processing, error := none,
                   data := none, num_retries := 0,
                   crawl_type := CrawlType.Normal, created_at := 0,
                   updated_at := 5, pipeline := none }]
       indexed := [], tags := [], crawl_tags := [],
       next_id := 2, next_tag_id := 1 }
     (by decide)⟩

theorem find?_eq_some_of_unique {α : Type} (p : α → Bool) :
    ∀ (l : List α) (x : α), x ∈ l → p x = true →
      (∀ y ∈ l, p y = true → y = x) → l.find? p = some x := by
  intro l
  induction l with
  | nil =>
    intro x hx
    exact absurd hx (by simp)
  | cons a t ih =>
    intro x hx hpx huniq
    by_cases hpa : p a = true
    · have ha : a = x := huniq a (List.mem_cons_self a t) hpa
      rw [List.find?_cons_of_pos t hpa, ha]
    · rw [List.find?_cons_of_neg t hpa]
      rcases List.mem_cons.mp hx with hax | hxt
      · exact absurd (by rw [hax] at hpx; exact hpx) hpa
      · exact ih x hxt hpx
          (fun y hy hpy => huniq y (List.mem_cons_of_mem a hy) hpy)

/-- C5 (amended): `update_or_remove_task` is idempotent on the store — the
second call with the same `(id, url)` performs no writes and fails exactly
when the first failed — and the two returned tasks agree on every stored
column except possibly `updated_at` (the rename branch returns the fetched
model before the save bumps `updated_at`, while the second call returns the
stored row with the bumped value). -/
theorem update_or_remove_task_idem (now1 now2 : Nat) (s : Store) (id : Int)
    (url : String)
    (hu : (s.queue.map (fun m => m.url)).Nodup)
    (hi : (s.queue.map (fun m => m.id)).Nodup) :
    (update_or_remove_task now1 s id url = Except.error "Task not found" →
      update_or_remove_task now2 s id url = Except.error "Task not found") ∧
    (∀ r1 s1, update_or_remove_task now1 s id url = Except.ok (r1, s1) →
      ∃ r2, update_or_remove_task now2 s1 id url = Except.ok (r2, s1) ∧
        sameExceptUpdatedAt r1 r2) := by
  constructor
  · intro h
    cases hfind : s.queue.find? (fun m => decide (m.url = url)) with
    | some existing =>
      exfalso
      simp only [update_or_remove_task, hfind] at h
      split at h <;> exact Except.noConfusion h
    | none =>
      cases hbyid : findById s id with
      | some task =>
        exfalso
        simp only [update_or_remove_task, hfind, hbyid] at h
        split at h <;> exact Except.noConfusion h
      | none =>
        simp only [update_or_remove_task, hfind, hbyid]
  · intro r1 s1 h
    cases hfind : s.queue.find? (fun m => decide (m.url = url)) with
    | some existing =>
      have hexmem : existing ∈ s.queue := List.mem_of_find?_eq_some hfind
      have hexurl : existing.url = url := by
        have := List.find?_some hfind
        simpa using this
      simp only [update_or_remove_task, hfind] at h
      by_cases hexid : existing.id ≠ id
      · rw [if_pos hexid] at h
        rw [Except.ok.injEq, Prod.mk.injEq] at h
        obtain ⟨hr1, hs1⟩ := h
        subst hr1
        subst hs1
        have hfind2 : (s.queue.filter (fun m => decide (m.id ≠ id))).find?
            (fun m => decide (m.url = url)) = some existing := by
          apply find?_eq_some_of_unique
          · rw [List.mem_filter]
            exact ⟨hexmem, by simpa using hexid⟩
          · simpa using hexurl
          · intro y hy hpy
            have hymem : y ∈ s.queue := (List.mem_filter.mp hy).1
            have hyurl : y.url = url := by simpa using hpy
            exact List.inj_on_of_nodup_map hu hymem hexmem
              (by rw [hyurl, hexurl])
        refine ⟨existing, ?_, by simp [sameExceptUpdatedAt]⟩
        simp only [update_or_remove_task, hfind2]
        rw [if_pos hexid]
        have hqe : (s.queue.filter (fun m => decide (m.id ≠ id))).filter
            (fun m => decide (m.id ≠ id)) =
            s.queue.filter (fun m => decide (m.id ≠ id)) := by
          apply List.filter_eq_self.mpr
          intro a ha
          exact (List.mem_filter.mp ha).2
        rw [hqe]
      · rw [if_neg hexid] at h
        rw [Except.ok.injEq, Prod.mk.injEq] at h
        obtain ⟨hr1, hs1⟩ := h
        subst hr1
        subst hs1
        refine ⟨existing, ?_, by simp [sameExceptUpdatedAt]⟩
        simp only [update_or_remove_task, hfind]
        rw [if_neg hexid]
    | none =>
      have hnone : ∀ x ∈ s.queue, ¬ x.url = url := by
        intro x hx
        have := List.find?_eq_none.mp hfind x hx
        simpa using this
      cases hbyid : findById s id with
      | some task =>
        have htmem : task ∈ s.queue := List.mem_of_find?_eq_some hbyid
        have htid : task.id = id := by
          have := List.find?_some hbyid
          simpa using this
        simp only [update_or_remove_task, hfind, hbyid] at h
        by_cases htu : task.url ≠ url
        · rw [if_pos htu] at h
          rw [Except.ok.injEq, Prod.mk.injEq] at h
          obtain ⟨hr1, hs1⟩ := h
          subst hr1
          subst hs1
          have hfind2 : ((s.queue.map (fun m =>
              if m.id = id then { m with url := url, updated_at := now1 }
              else m)).find? (fun m => decide (m.url = url))) =
              some { task with url := url, updated_at := now1 } := by
            apply find?_eq_some_of_unique
            · rw [List.mem_map]
              exact ⟨task, htmem, by rw [if_pos htid]⟩
            · simp
            · intro y hy hpy
              rw [List.mem_map] at hy
              obtain ⟨m0, hm0, hym⟩ := hy
              by_cases hm0id : m0.id = id
              · have : m0 = task :=
                  List.inj_on_of_nodup_map hi hm0 htmem
                    (by rw [hm0id, htid])
                rw [← hym, if_pos hm0id, this]
              · rw [← hym, if_neg hm0id] at hpy ⊢
                have hyurl : m0.url = url := by simpa using hpy
                exact absurd hyurl (hnone m0 hm0)
          refine ⟨{ task with url := url, updated_at := now1 }, ?_,
            by simp [sameExceptUpdatedAt]⟩
          simp only [update_or_remove_task, hfind2]
          rw [if_neg (by simpa using htid)]
        · rw [if_neg htu] at h
          rw [Except.ok.injEq, Prod.mk.injEq] at h
          obtain ⟨hr1, hs1⟩ := h
          subst hr1
          subst hs1
          refine ⟨task, ?_, by simp [sameExceptUpdatedAt]⟩
          simp only [update_or_remove_task, hfind, hbyid]
          rw [if_neg htu]
      | none =>
        exfalso
        simp only [update_or_remove_task, hfind, hbyid] at h
        exact Except.noConfusion h

/-- C5 counterexample: renaming a task's url and calling again leaves the
store unchanged, but the two calls do not return the same task — the first
returns the fetched model with the old `updated_at` (0), the second the
stored row with the bumped `updated_at` (1). -/
theorem update_or_remove_task_returns_differ :
    update_or_remove_task 1 storeRename 1 "http://a/y" =
      Except.ok
        ({ id := 1, domain := "a", url := "http://a/y",
           status := CrawlStatus.Completed, error := none, data := none,
           num_retries := 0, crawl_type := CrawlType.Normal,
           created_at := 0, updated_at := 0, pipeline := none },
         { queue := [{ id := 1, domain := "a", url := "http://a/y",
                       status := CrawlStatus.Completed, error := none,
                       data := none, num_retries := 0,
                       crawl_type := CrawlType.Normal, created_at := 0,
                       updated_at := 1, pipeline := none }]
           indexed := [], tags := [], crawl_tags := [],
           next_id := 2, next_tag_id := 1 }) ∧
    update_or_remove_task 2
      { queue := [{ id := 1, domain := "a", url := "http://a/y",
                    status := CrawlStatus.Completed, error := none,
                    data := none, num_retries := 0,
                    crawl_type := CrawlType.Normal, created_at := 0,
                    updated_at := 1, pipeline := none }]
        indexed := [], tags := [], crawl_tags := [],
        next_id := 2, next_tag_id := 1 } 1 "http://a/y" =
      Except.ok
        ({ id := 1, domain := "a", url := "http://a/y",
           status := CrawlStatus.Completed, error := none, data := none,
           num_retries := 0, crawl_type := CrawlType.Normal,
           created_at := 0, updated_at := 1, pipeline := none },
         { queue := [{ id := 1, domain := "a", url := "http://a/y",
                       status := CrawlStatus.Completed, error := none,
                       data := none, num_retries := 0,
                       crawl_type := CrawlType.Normal, created_at := 0,
                       updated_at := 1, pipeline := none }]
           indexed := [], tags := [], crawl_tags := [],
           next_id := 2, next_tag_id := 1 }) ∧
    ({ id := 1, domain := "a", url := "http://a/y",
       status := CrawlStatus.Completed, error := none, data := none,
       num_retries := 0, crawl_type := CrawlType.Normal,
       created_at := 0, updated_at := 0, pipeline := none } : Model) ≠
      { id := 1, domain := "a", url := "http://a/y",
        status := CrawlStatus.Completed, error := none, data := none,
        num_retries := 0, crawl_type := CrawlType.Normal,
        created_at := 0, updated_at := 1, pipeline := none } :=
  ⟨rfl, rfl, by decide⟩

theorem update_or_remove_task_idem_witness :
    (update_or_remove_task 1 storeRename 1 "http://a/y" =
        Except.error "Task not found" →
      update_or_remove_task 2 storeRename 1 "http://a/y" =
        Except.error "Task not found") ∧
    (∀ r1 s1, update_or_remove_task 1 storeRename 1 "http://a/y" =
        Except.ok (r1, s1) →
      ∃ r2, update_or_remove_task 2 s1 1 "http://a/y" =
        Except.ok (r2, s1) ∧ sameExceptUpdatedAt r1 r2) :=
  update_or_remove_task_idem 1 2 storeRename 1 "http://a/y"
    (by decide) (by decide)

theorem filter_map_comm {α : Type} (p : α → Bool) (g : α → α)
    (hg : ∀ a, p (g a) = p a) (l : List α) :
    (l.map g).filter p = (l.filter p).map g := by
  induction l with
  | nil => rfl
  | cons a t ih =>
    simp only [List.map_cons, List.filter_cons, hg a]
    by_cases hpa : p a = true
    · simp [hpa, ih]
    · simp [hpa, ih]

theorem filter_eq_singleton_of_nodup (u : String) (q : List Model) (m : Model)
    (hnodup : (q.map (fun r => r.url)).Nodup) (hm : m ∈ q)
    (hurl : m.url = u) : q.filter (fun r => decide (r.url = u)) = [m] := by
  induction q with
  | nil => exact absurd hm (by simp)
  | cons a t ih =>
    simp only [List.map_cons, List.nodup_cons] at hnodup
    obtain ⟨hna, hnt⟩ := hnodup
    rcases List.mem_cons.mp hm with ham | hmt
    · rw [List.filter_cons, if_pos (by rw [← ham]; simpa using hurl)]
      have htail : t.filter (fun r => decide (r.url = u)) = [] := by
        apply List.filter_eq_nil_iff.mpr
        intro x hx
        simp only [decide_eq_true_eq]
        intro hxu
        apply hna
        rw [List.mem_map]
        exact ⟨x, hx, by rw [hxu, ← hurl, ham]⟩
      rw [htail, ← ham]
    · have hpa : ¬ (decide (a.url = u) = true) := by
        simp only [decide_eq_true_eq]
        intro hau
        apply hna
        rw [List.mem_map]
        exact ⟨m, hmt, by rw [hurl, ← hau]⟩
      rw [List.filter_cons, if_neg hpa]
      exact ih hnt hmt

theorem model_status_update_self (X : Model)
    (h : X.status = CrawlStatus.Queued) :
    { X with status := CrawlStatus.Queued } = X := by
  cases X
  simp_all

theorem insertOrUpdate_hit (now : Nat) (u : String) (st : Store)
    (row : EnqueueRow) (X : Model) (hrow : row.url = u)
    (h : st.queue.filter (fun r => decide (r.url = u)) = [X]) :
    (insertOrUpdate now true st row).queue.filter
      (fun r => decide (r.url = u)) =
      [{ X with status := CrawlStatus.Queued }] := by
  have hXmem : X ∈ st.queue := by
    have : X ∈ st.queue.filter (fun r => decide (r.url = u)) := by
      rw [h]
      exact List.mem_cons_self X []
    exact (List.mem_filter.mp this).1
  have hXurl : X.url = u := by
    have : X ∈ st.queue.filter (fun r => decide (r.url = u)) := by
      rw [h]
      exact List.mem_cons_self X []
    simpa using (List.mem_filter.mp this).2
  have hc : st.queue.any (fun m => decide (m.url = row.url)) = true := by
    rw [List.any_eq_true]
    exact ⟨X, hXmem, by simp [hXurl, hrow]⟩
  unfold insertOrUpdate
  rw [if_pos hc, if_pos rfl]
  simp only []
  rw [filter_map_comm _ _
    (fun a => by by_cases ha : a.url = row.url <;> simp [ha]), h]
  simp only [List.map_cons, List.map_nil]
  rw [if_pos (by rw [hXurl, hrow])]

theorem insertOrUpdate_keep (now : Nat) (rec : Bool) (u : String)
    (st : Store) (row : EnqueueRow) (X : Model)
    (hside : row.url ≠ u ∨ (rec = true → X.status = CrawlStatus.Queued))
    (h : st.queue.filter (fun r => decide (r.url = u)) = [X]) :
    (insertOrUpdate now rec st row).queue.filter
      (fun r => decide (r.url = u)) = [X] := by
  have hXmem : X ∈ st.queue := by
    have : X ∈ st.queue.filter (fun r => decide (r.url = u)) := by
      rw [h]
      exact List.mem_cons_self X []
    exact (List.mem_filter.mp this).1
  have hXurl : X.url = u := by
    have : X ∈ st.queue.filter (fun r => decide (r.url = u)) := by
      rw [h]
      exact List.mem_cons_self X []
    simpa using (List.mem_filter.mp this).2
  unfold insertOrUpdate
  by_cases hc : st.queue.any (fun m => decide (m.url = row.url)) = true
  · rw [if_pos hc]
    by_cases hrec : rec = true
    · rw [if_pos hrec]
      simp only []
      by_cases hrow : row.url = u
      · rw [filter_map_comm _ _
          (fun a => by by_cases ha : a.url = row.url <;> simp [ha]), h]
        simp only [List.map_cons, List.map_nil]
        rw [if_pos (by rw [hXurl, hrow])]
        rw [model_status_update_self X ((hside.resolve_left (by simp [hrow])) hrec)]
      · rw [filter_map_comm _ _
          (fun a => by by_cases ha : a.url = row.url <;> simp [ha]), h]
        simp only [List.map_cons, List.map_nil]
        rw [if_neg (fun hh => hrow ((hXurl.symm.trans hh).symm))]
    · rw [if_neg hrec]
      exact h
  · rw [if_neg hc]
    simp only []
    rw [List.filter_append, h]
    have hrow : ¬ row.url = u := by
      intro hru
      apply hc
      rw [List.any_eq_true]
      exact ⟨X, hXmem, by simp [hXurl, hru]⟩
    rw [List.filter_cons]
    rw [if_neg (by simp only [decide_eq_true_eq]; exact fun hh => hrow hh)]
    simp

theorem fold_keep (now : Nat) (rec : Bool) (u : String) (X : Model)
    (hXq : rec = true → X.status = CrawlStatus.Queued) :
    ∀ (rows : List EnqueueRow) (st : Store),
      st.queue.filter (fun r => decide (r.url = u)) = [X] →
      (rows.foldl (insertOrUpdate now rec) st).queue.filter
        (fun r => decide (r.url = u)) = [X] := by
  intro rows
  induction rows with
  | nil =>
    intro st h
    exact h
  | cons row rest ih =>
    intro st h
    simp only [List.foldl_cons]
    exact ih _ (insertOrUpdate_keep now rec u st row X (Or.inr hXq) h)

theorem fold_hit (now : Nat) (u : String) (X : Model) :
    ∀ (rows : List EnqueueRow) (st : Store),
      st.queue.filter (fun r => decide (r.url = u)) = [X] →
      (∃ row ∈ rows, row.url = u) →
      (rows.foldl (insertOrUpdate now true) st).queue.filter
        (fun r => decide (r.url = u)) =
        [{ X with status := CrawlStatus.Queued }] := by
  intro rows
  induction rows with
  | nil =>
    rintro st h ⟨row, hmem, _⟩
    exact absurd hmem (by simp)
  | cons row rest ih =>
    rintro st h ⟨w, hw, hwu⟩
    simp only [List.foldl_cons]
    by_cases hrow : row.url = u
    · exact fold_keep now true u _ (fun _ => rfl) rest _
        (insertOrUpdate_hit now u st row X hrow h)
    · have h1 := insertOrUpdate_keep now true u st row X (Or.inl hrow) h
      rcases List.mem_cons.mp hw with hwr | hwrest
      · exact absurd (by rw [← hwr]; exact hwu) hrow
      · exact ih _ h1 ⟨w, hwrest, hwu⟩

theorem buildRows_mem (prs : String → Option ParsedUrl) (ct : CrawlType)
    (pipeline : Option String) (u : String) (p0 : ParsedUrl)
    (hp : prs u = some p0) :
    ∀ (l : List String) (rows : List EnqueueRow), u ∈ l →
      buildRows prs ct pipeline [] l = Except.ok rows →
      ∃ row ∈ rows, row.url = u := by
  intro l
  induction l with
  | nil =>
    intro rows hu
    exact absurd hu (by simp)
  | cons v rest ih =>
    intro rows hu hb
    have hcon : (([] : List String).contains v) = false := rfl
    rcases List.mem_cons.mp hu with huv | hurest
    · subst huv
      cases hdm : (if p0.scheme = "file" then Except.ok "localhost"
          else match p0.host with
            | some h => Except.ok h
            | none => (Except.error "Invalid URL host" :
                Except String String)) with
      | error e =>
        simp only [buildRows, hcon, Bool.false_eq_true, if_false, hp,
          hdm] at hb
        exact Except.noConfusion hb
      | ok d =>
        cases hrec : buildRows prs ct pipeline [] rest with
        | error e =>
          simp only [buildRows, hcon, Bool.false_eq_true, if_false, hp,
            hdm, hrec] at hb
          exact Except.noConfusion hb
        | ok rows' =>
          simp only [buildRows, hcon, Bool.false_eq_true, if_false, hp,
            hdm, hrec] at hb
          have hlist :
              ({ domain := d, crawl_type := ct, url := u,
                 pipeline := pipeline } : EnqueueRow) :: rows' = rows :=
            Except.ok.inj hb
          rw [← hlist]
          exact ⟨_, List.mem_cons_self _ _, rfl⟩
    · cases hpv : prs v with
      | none =>
        simp only [buildRows, hcon, Bool.false_eq_true, if_false,
          hpv] at hb
        exact ih rows hurest hb
      | some pv =>
        cases hdm : (if pv.scheme = "file" then Except.ok "localhost"
            else match pv.host with
              | some h => Except.ok h
              | none => (Except.error "Invalid URL host" :
                  Except String String)) with
        | error e =>
          simp only [buildRows, hcon, Bool.false_eq_true, if_false, hpv,
            hdm] at hb
          exact Except.noConfusion hb
        | ok d =>
          cases hrec : buildRows prs ct pipeline [] rest with
          | error e =>
            simp only [buildRows, hcon, Bool.false_eq_true, if_false, hpv,
              hdm, hrec] at hb
            exact Except.noConfusion hb
          | ok rows' =>
            simp only [buildRows, hcon, Bool.false_eq_true, if_false, hpv,
              hdm, hrec] at hb
            obtain ⟨row', hrow', hrowu⟩ := ih rows' hurest hrec
            have hlist :
                ({ domain := d, crawl_type := ct, url := v,
                   pipeline := pipeline } : EnqueueRow) :: rows' = rows :=
              Except.ok.inj hb
            rw [← hlist]
            exact ⟨row', List.mem_cons_of_mem _ hrow', hrowu⟩

/-- C4: for a URL admitted by the filter whose row already exists with
status Completed (in a well-formed store with unique urls), a successful
`enqueue_all` leaves exactly one row for that URL; with `is_recrawl` its
status becomes Queued (ON CONFLICT DO UPDATE of the status column), without
`is_recrawl` the row is left entirely unchanged (ON CONFLICT DO NOTHING) —
so two successful enqueues of the same URL yield exactly one row. -/
theorem enqueue_conflict_semantics (eng : RegexEngine)
    (prs : String → Option ParsedUrl) (now : Nat) (s : Store)
    (urls : List String) (lenses : List LensConfig)
    (settings : UserSettings) (overrides : EnqueueSettings)
    (pipeline : Option String) (u : String) (m : Model) (s' : Store)
    (hm : m ∈ s.queue) (hurl : m.url = u)
    (_hstatus : m.status = CrawlStatus.Completed)
    (hnodup : (s.queue.map (fun r => r.url)).Nodup)
    (hinfilter : u ∈ filter_urls eng prs lenses settings overrides urls)
    (hparse : ∃ p0, prs u = some p0)
    (hsucc : enqueue_all eng prs now s urls lenses settings overrides
      pipeline = Except.ok s') :
    s'.queue.filter (fun r => decide (r.url = u)) =
      (if overrides.is_recrawl then
        [{ m with status := CrawlStatus.Queued }]
       else [m]) := by
  have hinit : s.queue.filter (fun r => decide (r.url = u)) = [m] :=
    filter_eq_singleton_of_nodup u s.queue m hnodup hm hurl
  by_cases hrec : overrides.is_recrawl = true
  · cases hb : buildRows prs overrides.crawl_type pipeline []
        (filter_urls eng prs lenses settings overrides urls) with
    | error e =>
      simp only [enqueue_all, hrec, if_true, hb] at hsucc
      exact Except.noConfusion hsucc
    | ok rows =>
      simp only [enqueue_all, hrec, if_true, hb] at hsucc
      have hs' : rows.foldl (insertOrUpdate now true) s = s' :=
        Except.ok.inj hsucc
      obtain ⟨p0, hp0⟩ := hparse
      have hwit := buildRows_mem prs overrides.crawl_type pipeline u p0 hp0
        (filter_urls eng prs lenses settings overrides urls) rows hinfilter hb
      rw [← hs']
      simp only [hrec, if_true]
      exact fold_hit now u m rows s hinit hwit
  · rw [Bool.not_eq_true] at hrec
    cases hb : buildRows prs overrides.crawl_type pipeline
        ((s.indexed.filter (fun e =>
          (filter_urls eng prs lenses settings overrides urls).contains
            e.url)).map (fun e => e.url))
        (filter_urls eng prs lenses settings overrides urls) with
    | error e =>
      simp only [enqueue_all, hrec, Bool.false_eq_true, if_false,
        hb] at hsucc
      exact Except.noConfusion hsucc
    | ok rows =>
      simp only [enqueue_all, hrec, Bool.false_eq_true, if_false,
        hb] at hsucc
      have hs' : rows.foldl (insertOrUpdate now false) s = s' :=
        Except.ok.inj hsucc
      rw [← hs']
      simp only [hrec, Bool.false_eq_true, if_false]
      exact fold_keep now false u m (fun hf => absurd hf (by decide))
        rows s hinit

theorem enqueue_conflict_semantics_witness :
    enqueue_all engNone parseUrlM 3 storeDone ["http://a/x"] [] usOpen
      ovRecrawl none =
      Except.ok
        { queue := [{ id := 1, domain := "a", url := "http://a/x",
                      status := CrawlStatus.Queued, error := none,
                      data := none, num_retries := 0,
                      crawl_type := CrawlType.Normal, created_at := 0,
                      updated_at := 0, pipeline := none }]
          indexed := [], tags := [], crawl_tags := [],
          next_id := 2, next_tag_id := 1 } ∧
    ({ queue := [{ id := 1, domain := "a", url := "http://a/x",
                   status := CrawlStatus.Queued, error := none,
                   data := none, num_retries := 0,
                   crawl_type := CrawlType.Normal, created_at := 0,
                   updated_at := 0, pipeline := none }]
       indexed := [], tags := [], crawl_tags := [],
       next_id := 2, next_tag_id := 1 } : Store).queue.filter
        (fun r => decide (r.url = "http://a/x")) =
      (if ovRecrawl.is_recrawl then
        [{ ({ id := 1, domain := "a", url := "http://a/x",
              status := CrawlStatus.Completed, error := none, data := none,
              num_retries := 0, crawl_type := CrawlType.Normal,
              created_at := 0, updated_at := 0,
              pipeline := none } : Model) with
            status := CrawlStatus.Queued }]
       else [{ id := 1, domain := "a", url := "http://a/x",
               status := CrawlStatus.Completed, error := none, data := none,
               num_retries := 0, crawl_type := CrawlType.Normal,
               created_at := 0, updated_at := 0, pipeline := none }]) :=
  ⟨rfl,
   enqueue_conflict_semantics engNone parseUrlM 3 storeDone ["http://a/x"]
     [] usOpen ovRecrawl none "http://a/x"
     { id := 1, domain := "a", url := "http://a/x",
       status := CrawlStatus.Completed, error := none, data := none,
       num_retries := 0, crawl_type := CrawlType.Normal,
       created_at := 0, updated_at := 0, pipeline := none }
     { queue := [{ id := 1, domain := "a", url := "http://a/x",
                   status := CrawlStatus.Queued, error := none,
                   data := none, num_retries := 0,
                   crawl_type := CrawlType.Normal, created_at := 0,
                   updated_at := 0, pipeline := none }]
       indexed := [], tags := [], crawl_tags := [],
       next_id := 2, next_tag_id := 1 }
     (by decide) (by decide) (by decide) (by decide) (by decide)
     ⟨{ scheme := "http", host := some "a", serialized := "http://a/x" },
      by decide⟩ rfl⟩

theorem get_or_create_queue (s : Store) (l v : String) :
    (get_or_create s l v).2.queue = s.queue := by
  unfold get_or_create
  split <;> rfl

theorem insert_tags_queue (now : Nat) (s : Store) (cid : Int)
    (tl : List (String × String)) :
    (insert_tags now s cid tl).queue = s.queue := by
  simp only [insert_tags]
  have h2 : ∀ (ts : List TagModel) (st : Store),
      (ts.foldl (fun st t =>
        if st.crawl_tags.any (fun ct =>
            decide (ct.crawl_queue_id = cid ∧ ct.tag_id = t.id)) then st
        else
          { st with
            crawl_tags := st.crawl_tags ++
              [{ crawl_queue_id := cid, tag_id := t.id,
                 created_at := now, updated_at := now }] }) st).queue =
        st.queue := by
    intro ts
    induction ts with
    | nil =>
      intro st
      rfl
    | cons t rest ih =>
      intro st
      rw [List.foldl_cons, ih]
      by_cases hct : st.crawl_tags.any (fun ct =>
          decide (ct.crawl_queue_id = cid ∧ ct.tag_id = t.id)) = true
      · rw [if_pos hct]
      · rw [if_neg hct]
  have h1 : ∀ (ps : List (String × String)) (acc : List TagModel × Store),
      ((ps.foldl (fun (acc : List TagModel × Store) p =>
        let r := get_or_create acc.2 p.1 p.2
        (acc.1 ++ [r.1], r.2)) acc).2).queue = acc.2.queue := by
    intro ps
    induction ps with
    | nil =>
      intro acc
      rfl
    | cons p rest ih =>
      intro acc
      rw [List.foldl_cons, ih]
      show (get_or_create acc.2 p.1 p.2).2.queue = acc.2.queue
      exact get_or_create_queue acc.2 p.1 p.2
  rw [h2, h1]

theorem monoQueue_refl (now : Nat) (s : Store) (hT : TimeOk now s)
    (hN : NodupIds s) : MonoQueue s.queue s.queue := by
  intro m' hm'
  refine ⟨(hT m' hm').1, ?_, ?_⟩
  · intro m hm hmid
    have : m = m' := List.inj_on_of_nodup_map hN hm hm' hmid
    rw [this]
  · intro hfresh
    exact absurd rfl (hfresh m' hm')

theorem monoQueue_map (now : Nat) (s : Store) (f : Model → Model)
    (hT : TimeOk now s) (hN : NodupIds s)
    (hf : ∀ m ∈ s.queue, (f m).id = m.id ∧ (f m).created_at = m.created_at ∧
      m.updated_at ≤ (f m).updated_at ∧ (f m).updated_at ≤ now) :
    MonoQueue s.queue (s.queue.map f) := by
  intro m' hm'
  rw [List.mem_map] at hm'
  obtain ⟨m0, hm0, he⟩ := hm'
  obtain ⟨hid, hcr, hle, _⟩ := hf m0 hm0
  rw [← he]
  refine ⟨?_, ?_, ?_⟩
  · rw [hcr]
    exact le_trans (hT m0 hm0).1 hle
  · intro m hm hmid
    have : m = m0 := List.inj_on_of_nodup_map hN hm hm0 (by rw [hmid, hid])
    rw [this]
    exact hle
  · intro hfresh
    exact absurd hid.symm (hfresh m0 hm0)

theorem monoQueue_map_frame (now : Nat) (q l : List Model)
    (g : Model → Model) (hM : MonoQueue q l) (hU : UpBounded now l)
    (hg : ∀ m ∈ l, (g m).id = m.id ∧ (g m).created_at = m.created_at ∧
      (g m).updated_at = m.updated_at) :
    MonoQueue q (l.map g) ∧ UpBounded now (l.map g) := by
  constructor
  · intro m' hm'
    rw [List.mem_map] at hm'
    obtain ⟨m0, hm0, he⟩ := hm'
    obtain ⟨hid, hcr, hup⟩ := hg m0 hm0
    obtain ⟨h1, h2, h3⟩ := hM m0 hm0
    rw [← he]
    refine ⟨?_, ?_, ?_⟩
    · rw [hcr, hup]
      exact h1
    · intro m hm hmid
      rw [hup]
      exact h2 m hm (by rw [hmid, hid])
    · intro hfresh
      rw [hup, hcr]
      exact h3 (fun m hm => by
        rw [← hid]
        exact hfresh m hm)
  · intro m' hm'
    rw [List.mem_map] at hm'
    obtain ⟨m0, hm0, he⟩ := hm'
    rw [← he, (hg m0 hm0).2.2]
    exact hU m0 hm0

theorem monoQueue_append_fresh (now : Nat) (q l : List Model)
    (newRow : Model) (hM : MonoQueue q l) (hU : UpBounded now l)
    (hq : UpBounded now q) (hcr : newRow.created_at = now)
    (hup : newRow.updated_at = now) :
    MonoQueue q (l ++ [newRow]) ∧ UpBounded now (l ++ [newRow]) := by
  constructor
  · intro m' hm'
    rw [List.mem_append] at hm'
    rcases hm' with hold | hnew
    · exact hM m' hold
    · have : m' = newRow := by simpa using hnew
      subst this
      refine ⟨by rw [hcr, hup], ?_, ?_⟩
      · intro m hm _
        rw [hup]
        exact hq m hm
      · intro _
        rw [hup, hcr]
  · intro m' hm'
    rw [List.mem_append] at hm'
    rcases hm' with hold | hnew
    · exact hU m' hold
    · have : m' = newRow := by simpa using hnew
      subst this
      rw [hup]

theorem insertOrUpdate_mono (now : Nat) (rec : Bool) (q : List Model)
    (hq : UpBounded now q) (st : Store) (row : EnqueueRow)
    (hM : MonoQueue q st.queue) (hU : UpBounded now st.queue) :
    MonoQueue q (insertOrUpdate now rec st row).queue ∧
    UpBounded now (insertOrUpdate now rec st row).queue := by
  unfold insertOrUpdate
  by_cases hc : st.queue.any (fun m => decide (m.url = row.url)) = true
  · rw [if_pos hc]
    by_cases hrec : rec = true
    · rw [if_pos hrec]
      exact monoQueue_map_frame now q st.queue _ hM hU
        (fun m hm => by by_cases hu : m.url = row.url <;> simp [hu])
    · rw [if_neg hrec]
      exact ⟨hM, hU⟩
  · rw [if_neg hc]
    exact monoQueue_append_fresh now q st.queue _ hM hU hq rfl rfl

theorem foldl_insertOrUpdate_mono (now : Nat) (rec : Bool)
    (q : List Model) (hq : UpBounded now q) :
    ∀ (rows : List EnqueueRow) (st : Store),
      MonoQueue q st.queue → UpBounded now st.queue →
      MonoQueue q (rows.foldl (insertOrUpdate now rec) st).queue ∧
      UpBounded now (rows.foldl (insertOrUpdate now rec) st).queue := by
  intro rows
  induction rows with
  | nil =>
    intro st h1 h2
    exact ⟨h1, h2⟩
  | cons row rest ih =>
    intro st h1 h2
    simp only [List.foldl_cons]
    obtain ⟨h1', h2'⟩ := insertOrUpdate_mono now rec q hq st row h1 h2
    exact ih _ h1' h2'

theorem dequeue_queue_cases (now : Nat) (s : Store) (us : UserSettings) :
    (dequeue now s us).2.queue = s.queue ∨
    ∃ tid, (dequeue now s us).2.queue = s.queue.map (fun m =>
      if m.id = tid then
        { m with status := CrawlStatus.Processing, updated_at := now }
      else m) := by
  have hclaim : ∀ t : Model, (claimTask now s t).2.queue = s.queue ∨
      ∃ tid, (claimTask now s t).2.queue = s.queue.map (fun m =>
        if m.id = tid then
          { m with status := CrawlStatus.Processing, updated_at := now }
        else m) := by
    intro t
    unfold claimTask
    by_cases hany : s.queue.any (fun m => decide (m.id = t.id)) = true
    · rw [if_pos hany]
      exact Or.inr ⟨t.id, rfl⟩
    · rw [if_neg hany]
      exact Or.inl rfl
  have hstep : (dequeueStep now s us).2.queue = s.queue ∨
      ∃ tid, (dequeueStep now s us).2.queue = s.queue.map (fun m =>
        if m.id = tid then
          { m with status := CrawlStatus.Processing, updated_at := now }
        else m) := by
    unfold dequeueStep
    cases hb : bootstrapTask s with
    | some t => exact hclaim t
    | none =>
      cases hsel : gen_dequeue_select s us with
      | some t => exact hclaim t
      | none => exact Or.inl rfl
  cases hlim : us.inflight_crawl_limit with
  | Infinite =>
    simp only [dequeue, hlim]
    exact hstep
  | Finite l =>
    simp only [dequeue, hlim]
    split
    · exact Or.inl rfl
    · exact hstep

/-- C6: under a monotone clock (`TimeOk`) and distinct primary keys, every
mutation of an existing crawl-queue row — dequeue's claim, `mark_done`,
`mark_failed`, the startup `reset_processing`, and the recrawl ON CONFLICT
status update inside `enqueue_all` — leaves each surviving row with
`updated_at` at or after the value previously stored under its id and with
`updated_at ≥ created_at`, while rows inserted by `enqueue_all` have
`updated_at = created_at` (inserts do not bump `updated_at` beyond the
creation time).  All of this is the `MonoQueue` relation between the old
and new queue. -/
theorem updated_at_monotone (now : Nat) (s : Store) (us : UserSettings)
    (id : Int) (retry : Bool) (tags : Option (List (String × String)))
    (eng : RegexEngine) (prs : String → Option ParsedUrl)
    (urls : List String) (lenses : List LensConfig)
    (settings : UserSettings) (overrides : EnqueueSettings)
    (pipeline : Option String)
    (hT : TimeOk now s) (hN : NodupIds s) :
    MonoQueue s.queue (dequeue now s us).2.queue ∧
    MonoQueue s.queue (mark_done now s id tags).2.queue ∧
    MonoQueue s.queue (mark_failed now s id retry).queue ∧
    MonoQueue s.queue (reset_processing s).queue ∧
    (∀ s', enqueue_all eng prs now s urls lenses settings overrides
      pipeline = Except.ok s' → MonoQueue s.queue s'.queue) := by
  refine ⟨?_, ?_, ?_, ?_, ?_⟩
  · rcases dequeue_queue_cases now s us with hcase | ⟨tid, hcase⟩
    · rw [hcase]
      exact monoQueue_refl now s hT hN
    · rw [hcase]
      exact monoQueue_map now s _ hT hN (fun m hm => by
        by_cases hid : m.id = tid <;> simp [hid, (hT m hm).2])
  · cases h : findById s id with
    | none =>
      simp only [mark_done, h]
      exact monoQueue_refl now s hT hN
    | some crawl =>
      simp only [mark_done, h]
      cases tags with
      | none =>
        exact monoQueue_map now s _ hT hN (fun m hm => by
          by_cases hid : m.id = id <;> simp [hid, (hT m hm).2])
      | some tl =>
        rw [insert_tags_queue]
        exact monoQueue_map now s _ hT hN (fun m hm => by
          by_cases hid : m.id = id <;> simp [hid, (hT m hm).2])
  · cases h : findById s id with
    | none =>
      simp only [mark_failed, h]
      exact monoQueue_refl now s hT hN
    | some crawl =>
      simp only [mark_failed, h]
      split
      · exact monoQueue_map now s _ hT hN (fun m hm => by
          by_cases hid : m.id = id <;> simp [hid, (hT m hm).2])
      · exact monoQueue_map now s _ hT hN (fun m hm => by
          by_cases hid : m.id = id <;> simp [hid, (hT m hm).2])
  · exact monoQueue_map now s _ hT hN (fun m hm => by
      by_cases hst : m.status = CrawlStatus.Processing <;>
        simp [hst, (hT m hm).2])
  · intro s' hsucc
    cases hb : buildRows prs overrides.crawl_type pipeline
        (if overrides.is_recrawl then []
         else (s.indexed.filter (fun e =>
           (filter_urls eng prs lenses settings overrides urls).contains
             e.url)).map (fun e => e.url))
        (filter_urls eng prs lenses settings overrides urls) with
    | error e =>
      simp only [enqueue_all, hb] at hsucc
      exact Except.noConfusion hsucc
    | ok rows =>
      simp only [enqueue_all, hb] at hsucc
      have hs' : rows.foldl (insertOrUpdate now overrides.is_recrawl) s =
          s' := Except.ok.inj hsucc
      rw [← hs']
      exact (foldl_insertOrUpdate_mono now overrides.is_recrawl s.queue
        (fun m hm => (hT m hm).2) rows s (monoQueue_refl now s hT hN)
        (fun m hm => (hT m hm).2)).1

theorem updated_at_monotone_witness :
    TimeOk 5 storeNorm ∧ NodupIds storeNorm ∧
    (MonoQueue storeNorm.queue (dequeue 5 storeNorm usFinite).2.queue ∧
    MonoQueue storeNorm.queue (mark_done 5 storeNorm 1 none).2.queue ∧
    MonoQueue storeNorm.queue (mark_failed 5 storeNorm 1 false).queue ∧
    MonoQueue storeNorm.queue (reset_processing storeNorm).queue ∧
    (∀ s', enqueue_all engNone parseUrlM 5 storeNorm ["http://a/x"] []
      usOpen ovForce none = Except.ok s' →
      MonoQueue storeNorm.queue s'.queue)) :=
  ⟨by unfold TimeOk; decide, by unfold NodupIds; decide,
   updated_at_monotone 5 storeNorm usFinite 1 false none engNone parseUrlM
     ["http://a/x"] [] usOpen ovForce none (by unfold TimeOk; decide)
     (by unfold NodupIds; decide)⟩
